import Mathlib

/-!
Verification of the VNA time-domain conversion module (`VNA_TDR.py`).

The module converts a frequency-domain S-parameter sweep into a time-domain
trace via an external inverse chirp-z kernel (`czt.freq2time`), with Kaiser
windowing, frequency extension for the lowpass modes, step integration and
axis rescaling.  Arrays are modelled as `List ℝ` / `List ℂ`, the external
kernel as an arbitrary function parameter, and the numpy Kaiser window by its
defining modified-Bessel series.
-/

open scoped BigOperators

/-- Running (cumulative) sums with accumulator, modelling `np.cumsum`. -/
def cumsumAux {α : Type} [AddCommMonoid α] (acc : α) : List α → List α
  | [] => []
  | x :: xs => (acc + x) :: cumsumAux (acc + x) xs

/-- Model of `np.cumsum`: element `i` of the result is the sum of the first `i+1`
elements of the input. -/
def cumsum {α : Type} [AddCommMonoid α] (l : List α) : List α :=
  cumsumAux 0 l

theorem cumsumAux_length {α : Type} [AddCommMonoid α] (acc : α) (l : List α) :
    (cumsumAux acc l).length = l.length := by
  induction l generalizing acc with
  | nil => rfl
  | cons x xs ih => simp [cumsumAux, ih]

theorem getLastD_irrel {α : Type} (l : List α) (h : l ≠ []) (d d' : α) :
    l.getLastD d = l.getLastD d' := by
  cases l with
  | nil => exact absurd rfl h
  | cons x xs => rw [List.getLastD_cons, List.getLastD_cons]

theorem cumsumAux_getLastD {α : Type} [AddCommMonoid α] (acc d : α) (l : List α)
    (h : l ≠ []) : (cumsumAux acc l).getLastD d = acc + l.sum := by
  induction l generalizing acc with
  | nil => exact absurd rfl h
  | cons x xs ih =>
    cases xs with
    | nil => simp [cumsumAux]
    | cons y ys =>
      rw [cumsumAux, List.getLastD_cons]
      have h2 : (cumsumAux (acc + x) (y :: ys)) ≠ [] := by
        intro hc
        have := cumsumAux_length (acc + x) (y :: ys)
        rw [hc] at this
        simp at this
      rw [getLastD_irrel _ h2 _ d, ih (acc + x) (by simp), List.sum_cons,
        List.sum_cons, add_assoc, List.sum_cons]

theorem cumsum_getLastD {α : Type} [AddCommMonoid α] (d : α) (l : List α)
    (h : l ≠ []) : (cumsum l).getLastD d = l.sum := by
  rw [cumsum, cumsumAux_getLastD _ _ _ h, zero_add]

theorem cumsum_length {α : Type} [AddCommMonoid α] (l : List α) :
    (cumsum l).length = l.length :=
  cumsumAux_length 0 l

theorem getD_length_sub_one {α : Type} [Inhabited α] (l : List α) (d : α)
    (h : l ≠ []) : l.getD (l.length - 1) d = l.getLastD d := by
  induction l with
  | nil => exact absurd rfl h
  | cons x xs ih =>
    cases xs with
    | nil => rfl
    | cons y ys =>
      have hlen : (x :: y :: ys).length - 1 = (y :: ys).length := by simp
      rw [hlen, List.getLastD_cons]
      have h3 : (y :: ys).length = ((y :: ys).length - 1) + 1 := by simp
      rw [h3, List.getD_cons_succ, ih (by simp)]
      exact getLastD_irrel _ (by simp) _ _

/-- Indexing `cumsum l` at `l.length - 1` (as in `scale_numerator[M-1]`)
equals the total sum. -/
theorem cumsum_getD_length_sub_one (l : List ℝ) (h : l ≠ []) :
    (cumsum l).getD (l.length - 1) 0 = l.sum := by
  have hne : cumsum l ≠ [] := by
    intro hc
    have := cumsum_length l
    rw [hc] at this
    exact h (List.length_eq_zero.mp this.symm)
  rw [← cumsum_length l, getD_length_sub_one _ _ hne, cumsum_getLastD _ _ h]

/-- Modified Bessel function of the first kind, order zero: the series
`∑ (x²/4)^k / (k!)²` defining `numpy`'s `i0` used by `np.kaiser`. -/
noncomputable def besselI0 (x : ℝ) : ℝ :=
  tsum (fun k : ℕ => (x ^ 2 / 4) ^ k / ((Nat.factorial k : ℝ)) ^ 2)

theorem besselI0_summable (x : ℝ) :
    Summable (fun k : ℕ => (x ^ 2 / 4) ^ k / ((Nat.factorial k : ℝ)) ^ 2) := by
  apply Summable.of_nonneg_of_le (fun k => by positivity)
    (fun k => ?_) (Real.summable_pow_div_factorial (x ^ 2 / 4))
  have h1 : (1 : ℝ) ≤ (Nat.factorial k : ℝ) := by
    exact_mod_cast Nat.one_le_iff_ne_zero.mpr (Nat.factorial_pos k).ne'
  have h2 : (Nat.factorial k : ℝ) ≤ ((Nat.factorial k : ℝ)) ^ 2 := by
    nlinarith
  exact div_le_div_of_nonneg_left (by positivity) (by positivity) h2

theorem besselI0_one_le (x : ℝ) : 1 ≤ besselI0 x := by
  have h := le_tsum (besselI0_summable x) 0 (fun j _ => by positivity)
  simpa [Nat.factorial] using h

theorem besselI0_pos (x : ℝ) : 0 < besselI0 x :=
  lt_of_lt_of_le one_pos (besselI0_one_le x)

theorem besselI0_zero : besselI0 0 = 1 := by
  rw [besselI0, tsum_eq_single 0 (fun k hk => by
    simp [zero_pow hk, zero_pow (two_ne_zero)])]
  norm_num [Nat.factorial]

theorem besselI0_mono {x y : ℝ} (hx : 0 ≤ x) (hxy : x ≤ y) :
    besselI0 x ≤ besselI0 y := by
  apply tsum_le_tsum (fun k => ?_) (besselI0_summable x) (besselI0_summable y)
  have hp : (x ^ 2 / 4) ^ k ≤ (y ^ 2 / 4) ^ k :=
    pow_le_pow_left₀ (by positivity) (by nlinarith) k
  exact (div_le_div_iff_of_pos_right (by positivity)).mpr hp

theorem besselI0_one_lt {x : ℝ} (hx : 0 < x) : 1 < besselI0 x := by
  have h1 : ∑ k ∈ Finset.range 2, (x ^ 2 / 4) ^ k / ((Nat.factorial k : ℝ)) ^ 2
      ≤ besselI0 x :=
    sum_le_tsum (Finset.range 2) (fun k _ => by positivity) (besselI0_summable x)
  have h2 : ∑ k ∈ Finset.range 2, (x ^ 2 / 4) ^ k / ((Nat.factorial k : ℝ)) ^ 2
      = 1 + x ^ 2 / 4 := by
    rw [Finset.sum_range_succ, Finset.sum_range_succ, Finset.sum_range_zero]
    simp [Nat.factorial]
  nlinarith [h1, h2, sq_nonneg x, hx]

/-- One element of `np.kaiser(M, beta)` for `M ≠ 1`: numpy computes
`i0(beta * sqrt(1 - ((n - alpha)/alpha)**2)) / i0(beta)` with
`alpha = (M-1)/2`. -/
noncomputable def kaiserTerm (M : ℕ) (beta : ℝ) (n : ℕ) : ℝ :=
  besselI0 (beta * Real.sqrt
      (1 - (((n : ℝ) - ((M : ℝ) - 1) / 2) / (((M : ℝ) - 1) / 2)) ^ 2))
    / besselI0 beta

/-- Model of `np.kaiser(M, beta)`: numpy returns `[1.0]` when `M = 1` and otherwise
maps `kaiserTerm` over `0, ..., M-1`. -/
noncomputable def kaiserWindow (M : ℕ) (beta : ℝ) : List ℝ :=
  if M = 1 then [1] else (List.range M).map (kaiserTerm M beta)

theorem kaiserTerm_pos (M : ℕ) (beta : ℝ) (n : ℕ) : 0 < kaiserTerm M beta n :=
  div_pos (besselI0_pos _) (besselI0_pos _)

theorem kaiserTerm_le_one (M : ℕ) {beta : ℝ} (hb : 0 ≤ beta) (n : ℕ) :
    kaiserTerm M beta n ≤ 1 := by
  rw [kaiserTerm, div_le_one (besselI0_pos beta)]
  apply besselI0_mono (mul_nonneg hb (Real.sqrt_nonneg _))
  have hq : (0 : ℝ) ≤ (((n : ℝ) - ((M : ℝ) - 1) / 2) / (((M : ℝ) - 1) / 2)) ^ 2 :=
    sq_nonneg _
  have hx : (1 : ℝ) - (((n : ℝ) - ((M : ℝ) - 1) / 2) / (((M : ℝ) - 1) / 2)) ^ 2 ≤ 1 := by
    linarith
  have hs : Real.sqrt
      (1 - (((n : ℝ) - ((M : ℝ) - 1) / 2) / (((M : ℝ) - 1) / 2)) ^ 2) ≤ 1 :=
    Real.sqrt_le_one.mpr hx
  exact mul_le_of_le_one_right hb hs

theorem kaiserTerm_beta_zero (M : ℕ) (n : ℕ) : kaiserTerm M 0 n = 1 := by
  rw [kaiserTerm, zero_mul, besselI0_zero, div_one]

theorem kaiserTerm_head_lt_one {M : ℕ} (h2 : 2 ≤ M) {beta : ℝ}
    (hb : 0 < beta) : kaiserTerm M beta 0 < 1 := by
  have ha : ((M : ℝ) - 1) / 2 ≠ 0 := by
    have : (2 : ℝ) ≤ (M : ℝ) := by exact_mod_cast h2
    intro hc
    nlinarith
  have harg : ((0 : ℕ) : ℝ) - ((M : ℝ) - 1) / 2 = -(((M : ℝ) - 1) / 2) := by
    push_cast
    ring
  rw [kaiserTerm, harg, neg_div, div_self ha]
  have h1 : (1 : ℝ) - (-1 : ℝ) ^ 2 = 0 := by norm_num
  rw [h1, Real.sqrt_zero, mul_zero, besselI0_zero,
    div_lt_one (besselI0_pos beta)]
  exact besselI0_one_lt hb

theorem kaiserWindow_length (M : ℕ) (beta : ℝ) :
    (kaiserWindow M beta).length = M := by
  rw [kaiserWindow]
  split
  · simp_all
  · simp

theorem sum_map_range (f : ℕ → ℝ) (n : ℕ) :
    ((List.range n).map f).sum = ∑ i ∈ Finset.range n, f i := by
  induction n with
  | zero => simp
  | succ m ih =>
    rw [List.range_succ, Finset.sum_range_succ, List.map_append,
      List.sum_append, ih]
    simp

theorem kaiserWindow_sum_pos {M : ℕ} (hM : 1 ≤ M) (beta : ℝ) :
    0 < (kaiserWindow M beta).sum := by
  rw [kaiserWindow]
  split
  · norm_num
  · rw [sum_map_range]
    apply Finset.sum_pos (fun i _ => kaiserTerm_pos M beta i)
    exact Finset.nonempty_range_iff.mpr (by omega)

theorem kaiserWindow_sum_le (M : ℕ) {beta : ℝ} (hb : 0 ≤ beta) :
    (kaiserWindow M beta).sum ≤ M := by
  rw [kaiserWindow]
  split
  · simp_all
  · rw [sum_map_range]
    calc ∑ i ∈ Finset.range M, kaiserTerm M beta i
        ≤ ∑ _i ∈ Finset.range M, (1 : ℝ) :=
          Finset.sum_le_sum (fun i _ => kaiserTerm_le_one M hb i)
      _ = M := by simp

theorem kaiserWindow_sum_beta_zero (M : ℕ) : (kaiserWindow M 0).sum = M := by
  rw [kaiserWindow]
  split
  · simp_all
  · rw [sum_map_range]
    calc ∑ i ∈ Finset.range M, kaiserTerm M 0 i
        = ∑ _i ∈ Finset.range M, (1 : ℝ) :=
          Finset.sum_congr rfl (fun i _ => kaiserTerm_beta_zero M i)
      _ = M := by simp

theorem kaiserWindow_sum_lt {M : ℕ} (h2 : 2 ≤ M) {beta : ℝ} (hb : 0 < beta) :
    (kaiserWindow M beta).sum < M := by
  rw [kaiserWindow, if_neg (by omega)]
  rw [sum_map_range]
  calc ∑ i ∈ Finset.range M, kaiserTerm M beta i
      < ∑ _i ∈ Finset.range M, (1 : ℝ) := by
        apply Finset.sum_lt_sum
          (fun i _ => kaiserTerm_le_one M hb.le i)
        exact ⟨0, Finset.mem_range.mpr (by omega), kaiserTerm_head_lt_one h2 hb⟩
    _ = M := by simp

/-- Configuration state of one conversion session (`VNA_TDR.__init__`):
time-axis unit, reflection type, velocity factor, Kaiser `Beta`, and the
step-mode flag `Step`. -/
structure VNA_TDR where
  unit : String
  refType : ℝ
  VF : ℝ
  Beta : ℝ
  Step : ℤ

/-- Default constructor state: `unit="seconds"`, `refType=1`, `VF=1`,
`Beta=0`, `Step=0`. -/
def VNA_TDR.init : VNA_TDR :=
  { unit := "seconds", refType := 1, VF := 1, Beta := 0, Step := 0 }

/-- Model of `toggleStep`: flips `Step` between 0 and 1 (any other value is left
unchanged, matching the `if/elif` in the source). -/
def VNA_TDR.toggleStep (self : VNA_TDR) : VNA_TDR :=
  if self.Step = 1 then { self with Step := 0 }
  else if self.Step = 0 then { self with Step := 1 }
  else self

/-- Model of `setUnit`: lower-cases the argument and matches against the three
accepted units, defaulting to `"seconds"`. -/
def VNA_TDR.setUnit (self : VNA_TDR) (s : String) : VNA_TDR :=
  let x := s.toLower
  let u := if x = "seconds" then "seconds"
    else if x = "feet" then "feet"
    else if x = "meters" then "meters"
    else "seconds"
  { self with unit := u }

/-- Model of `setVF`: accepts `velfac` iff `abs(velfac) <= 1.0 and velfac > 0.0`,
otherwise resets `VF` to 1. -/
noncomputable def VNA_TDR.setVF (self : VNA_TDR) (velfac : ℝ) : VNA_TDR :=
  if |velfac| ≤ 1 ∧ velfac > 0 then { self with VF := velfac }
  else { self with VF := 1 }

/-- Model of `setBeta`: accepts `B` iff `B >= 0`, otherwise resets `Beta` to 0. -/
noncomputable def VNA_TDR.setBeta (self : VNA_TDR) (B : ℝ) : VNA_TDR :=
  if B ≥ 0 then { self with Beta := B } else { self with Beta := 0 }

/-- Model of `setRefType`: accepts 1 or 2, otherwise resets `refType` to 1. -/
noncomputable def VNA_TDR.setRefType (self : VNA_TDR) (reflection : ℝ) : VNA_TDR :=
  if reflection = 1 then { self with refType := reflection }
  else if reflection = 2 then { self with refType := reflection }
  else { self with refType := 1 }

/-- Model of `scaleFreq`: identity when the unit is seconds, otherwise divides every
frequency sample by `VF`. -/
noncomputable def VNA_TDR.scaleFreq (self : VNA_TDR) (F : List ℝ) : List ℝ :=
  if self.unit = "seconds" then F else F.map fun f => f / self.VF

/-- Model of `scaleTimeAxis`: unit-dependent rescaling of the time axis, dividing by
`refType`; an unrecognized unit leaves the axis unchanged. -/
noncomputable def VNA_TDR.scaleTimeAxis (self : VNA_TDR) (T : List ℝ) : List ℝ :=
  if self.unit = "seconds" then T.map fun t => t / self.refType
  else if self.unit = "feet" then T.map fun t => t * 9.8357e8 / self.refType
  else if self.unit = "meters" then T.map fun t => t * 2.9979e8 / self.refType
  else T

/-- Model of `np.linspace(start, stop, num)`: `num` uniformly spaced samples. -/
noncomputable def linspace (start stop : ℝ) (num : ℕ) : List ℝ :=
  if num = 1 then [start]
  else (List.range num).map fun i =>
    start + (i : ℝ) * (stop - start) / ((num : ℝ) - 1)

/-- Type of the external chirp-z kernel `czt.freq2time`: it receives a
frequency axis, a spectrum and a target time axis, and returns a pair of a
time axis and a complex response. -/
abbrev Kernel : Type := List ℝ → List ℂ → List ℝ → List ℝ × List ℂ

/-- The window-attenuation scale of `bandpass`:
`cumsum(kaiser)[M-1] / cumsum(ones(M))[M-1]`. -/
noncomputable def bandpassScale (M : ℕ) (beta : ℝ) : ℝ :=
  (cumsum (kaiserWindow M beta)).getD (M - 1) 0 /
    (cumsum (List.replicate M (1 : ℝ))).getD (M - 1) 0

/-- The kernel invocation inside `bandpass`: scaled frequency axis, windowed
spectrum, target time axis. -/
noncomputable def bandpassCzt (K : Kernel) (cfg : VNA_TDR) (X : List ℂ)
    (Fstart Fstop Tstart Tstop : ℝ) : List ℝ × List ℂ :=
  K (cfg.scaleFreq (linspace Fstart Fstop X.length))
    (List.zipWith (fun w x => (w : ℂ) * x) (kaiserWindow X.length cfg.Beta) X)
    (linspace Tstart Tstop X.length)

/-- Model of `bandpass`: windows the spectrum, invokes the kernel, takes magnitudes
divided by the window scale, and rescales the time axis.  The final
component is the (unchanged) configuration state. -/
noncomputable def bandpass (K : Kernel) (cfg : VNA_TDR) (X : List ℂ)
    (Fstart Fstop Tstart Tstop : ℝ) : (List ℝ × List ℝ) × VNA_TDR :=
  let x := bandpassCzt K cfg X Fstart Fstop Tstart Tstop
  let x1 := x.2.map fun z => Complex.abs z / bandpassScale X.length cfg.Beta
  let x0 := cfg.scaleTimeAxis x.1
  ((x0, x1), cfg)

/-- The extended frequency axis of `lowpass_impulse`:
`append(negative(flip(freq)), append([0], freq))`. -/
noncomputable def extendedFreq (Fstart Fstop : ℝ) (M : ℕ) : List ℝ :=
  let freq := linspace Fstart Fstop M
  let negfreq := (freq.reverse).map fun f => -f
  negfreq ++ ([0] ++ freq)

/-- The extended spectrum of `lowpass_impulse`:
`append(flip(conj(X)), append([abs(X[0])], X))` — conjugate-reversed input,
synthesized real DC estimate, then the input. -/
noncomputable def extendedSpectrum (X : List ℂ) : List ℂ :=
  let zero : ℂ := ((Complex.abs (X.getD 0 0) : ℝ) : ℂ)
  let negX := (X.map fun z => (starRingEnd ℂ) z).reverse
  negX ++ ([zero] ++ X)

/-- The window-attenuation scale of `lowpass_impulse`:
`cumsum(kaiser)[-1] / cumsum(ones(2M+1))[-1]`. -/
noncomputable def lowpassScale (M : ℕ) (beta : ℝ) : ℝ :=
  (cumsum (kaiserWindow (2 * M + 1) beta)).getLastD 0 /
    (cumsum (List.replicate (2 * M + 1) (1 : ℝ))).getLastD 0

/-- The kernel invocation inside `lowpass_impulse`: scaled extended
frequency axis, windowed extended spectrum, target time axis of `M`
points. -/
noncomputable def lowpassCzt (K : Kernel) (cfg : VNA_TDR) (X : List ℂ)
    (Fstart Fstop Tstart Tstop : ℝ) : List ℝ × List ℂ :=
  K (cfg.scaleFreq (extendedFreq Fstart Fstop X.length))
    (List.zipWith (fun w x => (w : ℂ) * x)
      (kaiserWindow (2 * X.length + 1) cfg.Beta) (extendedSpectrum X))
    (linspace Tstart Tstop X.length)

/-- Model of `lowpass_impulse`: extends the spectrum, windows it, invokes the kernel;
when `Step == 0` returns magnitudes divided by the window scale, when
`Step == 1` returns the raw complex kernel output and toggles `Step` back;
the time axis is rescaled in every branch. -/
noncomputable def lowpass_impulse (K : Kernel) (cfg : VNA_TDR) (X : List ℂ)
    (Fstart Fstop Tstart Tstop : ℝ) : (List ℝ × List ℂ) × VNA_TDR :=
  let x := lowpassCzt K cfg X Fstart Fstop Tstart Tstop
  let scale := lowpassScale X.length cfg.Beta
  if cfg.Step = 0 then
    ((cfg.scaleTimeAxis x.1,
      x.2.map fun z => ((Complex.abs z / scale : ℝ) : ℂ)), cfg)
  else if cfg.Step = 1 then
    ((cfg.toggleStep.scaleTimeAxis x.1, x.2), cfg.toggleStep)
  else
    ((cfg.scaleTimeAxis x.1, x.2), cfg)

/-- Model of `lowpass_step`: toggles `Step`, obtains the (raw) lowpass impulse, and
returns the magnitude of its cumulative sum divided by
`(2*len(X)+1)/len(X)`. -/
noncomputable def lowpass_step (K : Kernel) (cfg : VNA_TDR) (X : List ℂ)
    (Fstart Fstop Tstart Tstop : ℝ) : (List ℝ × List ℝ) × VNA_TDR :=
  let cfg1 := cfg.toggleStep
  let r := lowpass_impulse K cfg1 X Fstart Fstop Tstart Tstop
  let scale := (2 * (X.length : ℝ) + 1) / (X.length : ℝ)
  let x0 := r.1.1
  let x1 := (cumsum r.1.2).map fun z => Complex.abs z / scale
  ((x0, x1), r.2)

/-- The window-mean scale factor of a length-`L` Kaiser window, as described
in the spec: last element of the cumulative sum of the window divided by the
last element of the cumulative sum of ones. -/
noncomputable def windowScale (L : ℕ) (beta : ℝ) : ℝ :=
  (cumsum (kaiserWindow L beta)).getLastD 0 /
    (cumsum (List.replicate L (1 : ℝ))).getLastD 0

theorem cumsum_replicate_one_getLastD {L : ℕ} (hL : 1 ≤ L) :
    (cumsum (List.replicate L (1 : ℝ))).getLastD 0 = L := by
  rw [cumsum_getLastD _ _ (by simp; omega), List.sum_replicate, nsmul_eq_mul,
    mul_one]

theorem windowScale_eq_sum_div {L : ℕ} (hL : 1 ≤ L) (beta : ℝ) :
    windowScale L beta = (kaiserWindow L beta).sum / L := by
  rw [windowScale, cumsum_replicate_one_getLastD hL, cumsum_getLastD]
  intro hc
  have := kaiserWindow_length L beta
  rw [hc] at this
  simp at this
  omega

theorem bandpassScale_eq_windowScale {M : ℕ} (hM : 1 ≤ M) (beta : ℝ) :
    bandpassScale M beta = windowScale M beta := by
  have h1 : kaiserWindow M beta ≠ [] := by
    intro hc
    have := kaiserWindow_length M beta
    rw [hc] at this
    simp at this
    omega
  have h2 : List.replicate M (1 : ℝ) ≠ [] := by
    simp
    omega
  rw [bandpassScale, windowScale]
  rw [show M - 1 = (kaiserWindow M beta).length - 1 by rw [kaiserWindow_length]]
  rw [cumsum_getD_length_sub_one _ h1, cumsum_getLastD _ _ h1]
  congr 1
  rw [show (kaiserWindow M beta).length - 1 = (List.replicate M (1:ℝ)).length - 1
    by rw [kaiserWindow_length, List.length_replicate]]
  rw [cumsum_getD_length_sub_one _ h2, cumsum_getLastD _ _ h2]

theorem lowpassScale_eq_windowScale (M : ℕ) (beta : ℝ) :
    lowpassScale M beta = windowScale (2 * M + 1) beta := rfl

/-- A concrete kernel instance used to witness theorems: echoes the spectrum
at the requested time points. -/
def trivialKernel : Kernel := fun _freq spectrum time => (time, spectrum)

theorem toggleStep_fields (cfg : VNA_TDR) :
    cfg.toggleStep.unit = cfg.unit ∧ cfg.toggleStep.refType = cfg.refType ∧
    cfg.toggleStep.VF = cfg.VF ∧ cfg.toggleStep.Beta = cfg.Beta := by
  rw [VNA_TDR.toggleStep]
  split
  · exact ⟨rfl, rfl, rfl, rfl⟩
  · split
    · exact ⟨rfl, rfl, rfl, rfl⟩
    · exact ⟨rfl, rfl, rfl, rfl⟩

theorem toggleStep_Step_zero {cfg : VNA_TDR} (h : cfg.Step = 0) :
    cfg.toggleStep.Step = 1 := by
  rw [VNA_TDR.toggleStep, if_neg (by omega), if_pos h]

theorem toggleStep_Step_one {cfg : VNA_TDR} (h : cfg.Step = 1) :
    cfg.toggleStep.Step = 0 := by
  rw [VNA_TDR.toggleStep, if_pos h]

theorem toggleStep_toggleStep {cfg : VNA_TDR} (h : cfg.Step = 0) :
    cfg.toggleStep.toggleStep = cfg := by
  cases cfg with
  | mk u r v b s =>
    simp only at h
    subst h
    rfl

theorem scaleTimeAxis_toggleStep (cfg : VNA_TDR) (T : List ℝ) :
    cfg.toggleStep.scaleTimeAxis T = cfg.scaleTimeAxis T := by
  have h := toggleStep_fields cfg
  rw [VNA_TDR.scaleTimeAxis, VNA_TDR.scaleTimeAxis, h.1, h.2.1]

theorem lowpassCzt_toggleStep (K : Kernel) (cfg : VNA_TDR) (X : List ℂ)
    (F1 F2 T1 T2 : ℝ) :
    lowpassCzt K cfg.toggleStep X F1 F2 T1 T2 = lowpassCzt K cfg X F1 F2 T1 T2 := by
  have h := toggleStep_fields cfg
  rw [lowpassCzt, lowpassCzt, VNA_TDR.scaleFreq, VNA_TDR.scaleFreq, h.1,
    h.2.2.1, h.2.2.2]

theorem lowpass_impulse_step_zero {cfg : VNA_TDR} (h : cfg.Step = 0)
    (K : Kernel) (X : List ℂ) (F1 F2 T1 T2 : ℝ) :
    lowpass_impulse K cfg X F1 F2 T1 T2 =
      ((cfg.scaleTimeAxis (lowpassCzt K cfg X F1 F2 T1 T2).1,
        (lowpassCzt K cfg X F1 F2 T1 T2).2.map
          fun z => ((Complex.abs z / lowpassScale X.length cfg.Beta : ℝ) : ℂ)),
       cfg) := by
  rw [lowpass_impulse]
  simp only [h]
  simp

theorem lowpass_impulse_step_one {cfg : VNA_TDR} (h : cfg.Step = 1)
    (K : Kernel) (X : List ℂ) (F1 F2 T1 T2 : ℝ) :
    lowpass_impulse K cfg X F1 F2 T1 T2 =
      ((cfg.scaleTimeAxis (lowpassCzt K cfg X F1 F2 T1 T2).1,
        (lowpassCzt K cfg X F1 F2 T1 T2).2), cfg.toggleStep) := by
  rw [lowpass_impulse]
  simp only [h]
  simp [scaleTimeAxis_toggleStep]

theorem lowpass_impulse_snd (K : Kernel) (cfg : VNA_TDR) (X : List ℂ)
    (F1 F2 T1 T2 : ℝ) :
    (lowpass_impulse K cfg X F1 F2 T1 T2).2 =
      if cfg.Step = 1 then cfg.toggleStep else cfg := by
  rw [lowpass_impulse]
  by_cases h0 : cfg.Step = 0
  · rw [if_pos h0, if_neg (by omega)]
  · by_cases h1 : cfg.Step = 1
    · rw [if_neg h0, if_pos h1, if_pos h1]
    · rw [if_neg h0, if_neg h1, if_neg h1]

theorem lowpass_step_snd (K : Kernel) (cfg : VNA_TDR) (X : List ℂ)
    (F1 F2 T1 T2 : ℝ) :
    (lowpass_step K cfg X F1 F2 T1 T2).2 =
      (lowpass_impulse K cfg.toggleStep X F1 F2 T1 T2).2 := rfl

theorem extendedSpectrum_length (X : List ℂ) :
    (extendedSpectrum X).length = 2 * X.length + 1 := by
  simp [extendedSpectrum]
  omega

theorem extendedSpectrum_getD_of_lt {X : List ℂ} {i : ℕ} (h : i < X.length) :
    (extendedSpectrum X).getD i 0 =
      (starRingEnd ℂ) (X.getD (X.length - 1 - i) 0) := by
  simp only [extendedSpectrum, List.getD_eq_getElem?_getD]
  rw [List.getElem?_append_left (by simp [h]), List.getElem?_reverse (by simp [h]),
    List.getElem?_map]
  simp only [List.length_map]
  cases ho : X[X.length - 1 - i]? with
  | none => simp [ho]
  | some z => simp [ho]

theorem extendedSpectrum_getD_of_gt {X : List ℂ} {i : ℕ} (h1 : X.length < i) :
    (extendedSpectrum X).getD i 0 = X.getD (i - X.length - 1) 0 := by
  simp only [extendedSpectrum, List.getD_eq_getElem?_getD]
  rw [List.getElem?_append_right (by simp; omega)]
  simp only [List.length_reverse, List.length_map]
  have hx : i - X.length = (i - X.length - 1) + 1 := by omega
  rw [List.cons_append, List.nil_append, hx, List.getElem?_cons_succ]
  have hy : i - X.length - 1 + 1 - 1 = i - X.length - 1 := by omega
  rw [hy]

theorem windowScale_pos {L : ℕ} (hL : 1 ≤ L) (beta : ℝ) :
    0 < windowScale L beta := by
  rw [windowScale_eq_sum_div hL]
  exact div_pos (kaiserWindow_sum_pos hL beta) (by exact_mod_cast hL)

theorem windowScale_le_one {L : ℕ} (hL : 1 ≤ L) {beta : ℝ} (hb : 0 ≤ beta) :
    windowScale L beta ≤ 1 := by
  rw [windowScale_eq_sum_div hL, div_le_one (by exact_mod_cast hL)]
  exact kaiserWindow_sum_le L hb

theorem windowScale_beta_zero {L : ℕ} (hL : 1 ≤ L) : windowScale L 0 = 1 := by
  rw [windowScale_eq_sum_div hL, kaiserWindow_sum_beta_zero, div_self]
  have hz : L ≠ 0 := by omega
  exact_mod_cast hz

theorem windowScale_lt_one {L : ℕ} (h2 : 2 ≤ L) {beta : ℝ} (hb : 0 < beta) :
    windowScale L beta < 1 := by
  have hL : (0 : ℝ) < (L : ℝ) := by
    have hp : 0 < L := by omega
    exact_mod_cast hp
  rw [windowScale_eq_sum_div (by omega), div_lt_one hL]
  exact kaiserWindow_sum_lt h2 hb

theorem windowScale_length_one (beta : ℝ) : windowScale 1 beta = 1 := by
  rw [windowScale_eq_sum_div le_rfl, kaiserWindow, if_pos rfl]
  norm_num

theorem bandpassScale_nonneg (M : ℕ) (beta : ℝ) : 0 ≤ bandpassScale M beta := by
  rcases Nat.eq_zero_or_pos M with h | h
  · subst h
    simp [bandpassScale, kaiserWindow, cumsum, cumsumAux]
  · rw [bandpassScale_eq_windowScale h]
    exact (windowScale_pos h beta).le

theorem lowpassScale_nonneg (M : ℕ) (beta : ℝ) : 0 ≤ lowpassScale M beta := by
  rw [lowpassScale_eq_windowScale]
  exact (windowScale_pos (by omega) beta).le

/-- The domain invariant of the configuration: every field holds a value in
its declared domain. -/
def ConfigOK (cfg : VNA_TDR) : Prop :=
  (cfg.unit = "seconds" ∨ cfg.unit = "feet" ∨ cfg.unit = "meters") ∧
  (cfg.refType = 1 ∨ cfg.refType = 2) ∧
  (0 < cfg.VF ∧ cfg.VF ≤ 1) ∧
  0 ≤ cfg.Beta ∧
  (cfg.Step = 0 ∨ cfg.Step = 1)

theorem configOK_init : ConfigOK VNA_TDR.init :=
  ⟨Or.inl rfl, Or.inl rfl, ⟨one_pos, le_rfl⟩, le_rfl, Or.inl rfl⟩

theorem configOK_setUnit {cfg : VNA_TDR} (h : ConfigOK cfg) (s : String) :
    ConfigOK (cfg.setUnit s) := by
  obtain ⟨_, h2, h3, h4, h5⟩ := h
  simp only [VNA_TDR.setUnit]
  split_ifs
  · exact ⟨Or.inl rfl, h2, h3, h4, h5⟩
  · exact ⟨Or.inr (Or.inl rfl), h2, h3, h4, h5⟩
  · exact ⟨Or.inr (Or.inr rfl), h2, h3, h4, h5⟩
  · exact ⟨Or.inl rfl, h2, h3, h4, h5⟩

theorem configOK_setVF {cfg : VNA_TDR} (h : ConfigOK cfg) (v : ℝ) :
    ConfigOK (cfg.setVF v) := by
  obtain ⟨h1, h2, _, h4, h5⟩ := h
  rw [VNA_TDR.setVF]
  split_ifs with hc
  · exact ⟨h1, h2, ⟨hc.2, (le_abs_self v).trans hc.1⟩, h4, h5⟩
  · exact ⟨h1, h2, ⟨one_pos, le_rfl⟩, h4, h5⟩

theorem configOK_setBeta {cfg : VNA_TDR} (h : ConfigOK cfg) (b : ℝ) :
    ConfigOK (cfg.setBeta b) := by
  obtain ⟨h1, h2, h3, _, h5⟩ := h
  rw [VNA_TDR.setBeta]
  split_ifs with hc
  · exact ⟨h1, h2, h3, hc, h5⟩
  · exact ⟨h1, h2, h3, le_rfl, h5⟩

theorem configOK_setRefType {cfg : VNA_TDR} (h : ConfigOK cfg) (r : ℝ) :
    ConfigOK (cfg.setRefType r) := by
  obtain ⟨h1, _, h3, h4, h5⟩ := h
  rw [VNA_TDR.setRefType]
  split_ifs with hc hd
  · exact ⟨h1, Or.inl hc, h3, h4, h5⟩
  · exact ⟨h1, Or.inr hd, h3, h4, h5⟩
  · exact ⟨h1, Or.inl rfl, h3, h4, h5⟩

theorem configOK_toggleStep {cfg : VNA_TDR} (h : ConfigOK cfg) :
    ConfigOK cfg.toggleStep := by
  obtain ⟨h1, h2, h3, h4, h5⟩ := h
  rw [VNA_TDR.toggleStep]
  split_ifs
  · exact ⟨h1, h2, h3, h4, Or.inl rfl⟩
  · exact ⟨h1, h2, h3, h4, Or.inr rfl⟩
  · exact ⟨h1, h2, h3, h4, h5⟩

theorem configOK_lowpass_impulse {cfg : VNA_TDR} (h : ConfigOK cfg)
    (K : Kernel) (X : List ℂ) (F1 F2 T1 T2 : ℝ) :
    ConfigOK (lowpass_impulse K cfg X F1 F2 T1 T2).2 := by
  rw [lowpass_impulse_snd]
  split_ifs
  · exact configOK_toggleStep h
  · exact h

/-- States reachable from the default constructor state through the public
operations of the class. -/
inductive Reachable : VNA_TDR → Prop where
  | init : Reachable VNA_TDR.init
  | setUnit (c : VNA_TDR) (s : String) : Reachable c → Reachable (c.setUnit s)
  | setVF (c : VNA_TDR) (v : ℝ) : Reachable c → Reachable (c.setVF v)
  | setBeta (c : VNA_TDR) (b : ℝ) : Reachable c → Reachable (c.setBeta b)
  | setRefType (c : VNA_TDR) (r : ℝ) : Reachable c → Reachable (c.setRefType r)
  | toggle (c : VNA_TDR) : Reachable c → Reachable c.toggleStep
  | bp (K : Kernel) (c : VNA_TDR) (X : List ℂ) (F1 F2 T1 T2 : ℝ) :
      Reachable c → Reachable (bandpass K c X F1 F2 T1 T2).2
  | li (K : Kernel) (c : VNA_TDR) (X : List ℂ) (F1 F2 T1 T2 : ℝ) :
      Reachable c → Reachable (lowpass_impulse K c X F1 F2 T1 T2).2
  | ls (K : Kernel) (c : VNA_TDR) (X : List ℂ) (F1 F2 T1 T2 : ℝ) :
      Reachable c → Reachable (lowpass_step K c X F1 F2 T1 T2).2

theorem reachable_configOK {cfg : VNA_TDR} (h : Reachable cfg) :
    ConfigOK cfg := by
  induction h with
  | init => exact configOK_init
  | setUnit c s _ ih => exact configOK_setUnit ih s
  | setVF c v _ ih => exact configOK_setVF ih v
  | setBeta c b _ ih => exact configOK_setBeta ih b
  | setRefType c r _ ih => exact configOK_setRefType ih r
  | toggle c _ ih => exact configOK_toggleStep ih
  | bp K c X F1 F2 T1 T2 _ ih => exact ih
  | li K c X F1 F2 T1 T2 _ ih => exact configOK_lowpass_impulse ih K X F1 F2 T1 T2
  | ls K c X F1 F2 T1 T2 _ ih =>
    rw [lowpass_step_snd]
    exact configOK_lowpass_impulse (configOK_toggleStep ih) K X F1 F2 T1 T2

/-- Claim C1: for `lowpass_impulse`, when `Step = 0` on entry the returned
response is the elementwise magnitude of the external kernel output divided
by the window-mean scale and the configuration (hence `Step`) is unchanged;
when `Step = 1` the raw complex kernel output is returned unscaled and
`Step` is flipped back to 0; in both cases the returned time axis is the
kernel time axis rescaled by `scaleTimeAxis`. -/
theorem claim_C1_lowpass_impulse_modes (K : Kernel) (cfg : VNA_TDR)
    (X : List ℂ) (F1 F2 T1 T2 : ℝ) :
    (cfg.Step = 0 →
      lowpass_impulse K cfg X F1 F2 T1 T2 =
        ((cfg.scaleTimeAxis (lowpassCzt K cfg X F1 F2 T1 T2).1,
          (lowpassCzt K cfg X F1 F2 T1 T2).2.map
            fun z => ((Complex.abs z / lowpassScale X.length cfg.Beta : ℝ) : ℂ)),
         cfg)) ∧
    (cfg.Step = 1 →
      lowpass_impulse K cfg X F1 F2 T1 T2 =
        ((cfg.scaleTimeAxis (lowpassCzt K cfg X F1 F2 T1 T2).1,
          (lowpassCzt K cfg X F1 F2 T1 T2).2), cfg.toggleStep) ∧
      (lowpass_impulse K cfg X F1 F2 T1 T2).2.Step = 0) := by
  constructor
  · intro h
    exact lowpass_impulse_step_zero h K X F1 F2 T1 T2
  · intro h
    refine ⟨lowpass_impulse_step_one h K X F1 F2 T1 T2, ?_⟩
    rw [lowpass_impulse_step_one h K X F1 F2 T1 T2]
    exact toggleStep_Step_one h

theorem claim_C1_witness :
    lowpass_impulse trivialKernel VNA_TDR.init ([1] : List ℂ) 0 1 0 1 =
      ((VNA_TDR.init.scaleTimeAxis
          (lowpassCzt trivialKernel VNA_TDR.init [1] 0 1 0 1).1,
        (lowpassCzt trivialKernel VNA_TDR.init [1] 0 1 0 1).2.map
          fun z => ((Complex.abs z /
            lowpassScale (List.length ([1] : List ℂ))
              VNA_TDR.init.Beta : ℝ) : ℂ)),
       VNA_TDR.init) :=
  (claim_C1_lowpass_impulse_modes trivialKernel VNA_TDR.init [1] 0 1 0 1).1 rfl

/-- Claim C2: after `lowpass_step` returns, `Step = 0`, from either initial
value in `{0, 1}`. -/
theorem claim_C2_lowpass_step_stepMode (K : Kernel) (cfg : VNA_TDR)
    (X : List ℂ) (F1 F2 T1 T2 : ℝ) (h : cfg.Step = 0 ∨ cfg.Step = 1) :
    (lowpass_step K cfg X F1 F2 T1 T2).2.Step = 0 := by
  rw [lowpass_step_snd, lowpass_impulse_snd]
  rcases h with h | h
  · rw [if_pos (toggleStep_Step_zero h)]
    exact toggleStep_Step_one (toggleStep_Step_zero h)
  · rw [if_neg (by simp [toggleStep_Step_one h])]
    exact toggleStep_Step_one h

theorem claim_C2_witness :
    (lowpass_step trivialKernel VNA_TDR.init ([] : List ℂ) 0 0 0 0).2.Step = 0 :=
  claim_C2_lowpass_step_stepMode trivialKernel VNA_TDR.init [] 0 0 0 0
    (Or.inl rfl)

/-- Claim C3: from the normal entry state `Step = 0`, `lowpass_step` returns
the rescaled time axis of its internal impulse call together with the
elementwise magnitude of the cumulative sum of the raw (unscaled) kernel
output, divided by `(2M+1)/M`; the configuration returns to its entry
value. -/
theorem claim_C3_lowpass_step_value (K : Kernel) (cfg : VNA_TDR) (X : List ℂ)
    (F1 F2 T1 T2 : ℝ) (h0 : cfg.Step = 0) (hM : 1 ≤ X.length) :
    lowpass_step K cfg X F1 F2 T1 T2 =
      ((cfg.scaleTimeAxis (lowpassCzt K cfg X F1 F2 T1 T2).1,
        (cumsum (lowpassCzt K cfg X F1 F2 T1 T2).2).map
          fun z => Complex.abs z /
            ((2 * (X.length : ℝ) + 1) / (X.length : ℝ))),
       cfg) := by
  have h1 : cfg.toggleStep.Step = 1 := toggleStep_Step_zero h0
  simp only [lowpass_step]
  rw [lowpass_impulse_step_one h1 K X F1 F2 T1 T2]
  rw [lowpassCzt_toggleStep, scaleTimeAxis_toggleStep, toggleStep_toggleStep h0]

theorem claim_C3_witness :
    lowpass_step trivialKernel VNA_TDR.init ([1] : List ℂ) 0 1 0 1 =
      ((VNA_TDR.init.scaleTimeAxis
          (lowpassCzt trivialKernel VNA_TDR.init [1] 0 1 0 1).1,
        (cumsum (lowpassCzt trivialKernel VNA_TDR.init [1] 0 1 0 1).2).map
          fun z => Complex.abs z /
            ((2 * ((List.length ([1] : List ℂ)) : ℝ) + 1) /
              ((List.length ([1] : List ℂ)) : ℝ))),
       VNA_TDR.init) :=
  claim_C3_lowpass_step_value trivialKernel VNA_TDR.init [1] 0 1 0 1 rfl
    (by simp)

/-- Claim C4: the extended spectrum built by `lowpass_impulse` is Hermitian:
every index `i` other than the synthesized DC index `M` satisfies
`extended[i] = conj(extended[2M - i])`. -/
theorem claim_C4_hermitian (X : List ℂ) (hM : 1 ≤ X.length) (i : ℕ)
    (hi : i ≤ 2 * X.length) (hne : i ≠ X.length) :
    (extendedSpectrum X).getD i 0 =
      (starRingEnd ℂ) ((extendedSpectrum X).getD (2 * X.length - i) 0) := by
  rcases Nat.lt_or_ge i X.length with h | h
  · rw [extendedSpectrum_getD_of_lt h, extendedSpectrum_getD_of_gt (by omega)]
    have hidx : 2 * X.length - i - X.length - 1 = X.length - 1 - i := by omega
    rw [hidx]
  · have hgt : X.length < i := by omega
    rw [extendedSpectrum_getD_of_gt hgt, extendedSpectrum_getD_of_lt (by omega)]
    have hidx : X.length - 1 - (2 * X.length - i) = i - X.length - 1 := by
      omega
    rw [hidx, Complex.conj_conj]

theorem claim_C4_witness :
    (extendedSpectrum [Complex.I]).getD 0 0 =
      (starRingEnd ℂ)
        ((extendedSpectrum [Complex.I]).getD
          (2 * List.length [Complex.I] - 0) 0) :=
  claim_C4_hermitian [Complex.I] (by simp) 0 (by simp) (by simp)

/-- Claim C5 (counterexample): `v = -1/2` has `0 < |v| ≤ 1`, yet `setVF`
resets `VF` to 1 instead of storing `-1/2`: the code additionally requires
`v > 0`. -/
theorem claim_C5_counterexample :
    0 < |(-1/2 : ℝ)| ∧ |(-1/2 : ℝ)| ≤ 1 ∧
      (VNA_TDR.init.setVF (-1/2)).VF = 1 ∧
      (VNA_TDR.init.setVF (-1/2)).VF ≠ -1/2 := by
  have hv : (VNA_TDR.init.setVF (-1/2)).VF = 1 := by
    rw [VNA_TDR.setVF, if_neg (by norm_num)]
  have habs : |(-1/2 : ℝ)| = 1/2 := by
    rw [abs_of_neg (by norm_num : (-1/2 : ℝ) < 0)]
    norm_num
  refine ⟨by rw [habs]; norm_num, by rw [habs]; norm_num, hv, ?_⟩
  rw [hv]
  norm_num

/-- Claim C5 (amended): after `setVF v`, `VF = v` when `0 < v ≤ 1` (the code
requires positivity of `v` itself, not only of its magnitude), and `VF = 1`
otherwise. -/
theorem claim_C5_amended (cfg : VNA_TDR) (v : ℝ) :
    ((0 < v ∧ v ≤ 1) → (cfg.setVF v).VF = v) ∧
    (¬(0 < v ∧ v ≤ 1) → (cfg.setVF v).VF = 1) := by
  constructor
  · rintro ⟨h1, h2⟩
    rw [VNA_TDR.setVF, if_pos ⟨by rwa [abs_of_pos h1], h1⟩]
  · intro h
    have hn : ¬(|v| ≤ 1 ∧ v > 0) := fun hc =>
      h ⟨hc.2, (le_abs_self v).trans hc.1⟩
    rw [VNA_TDR.setVF, if_neg hn]

theorem claim_C5_witness : (VNA_TDR.init.setVF (1/2)).VF = 1/2 :=
  (claim_C5_amended VNA_TDR.init (1/2)).1 (by norm_num)

/-- Claim C6 (counterexample): for the length-1 bandpass window (`M = 1`)
numpy returns `[1.0]` for every `Beta`, so the scale factor equals 1 at
`Beta = 1 ≠ 0`, refuting "equals 1 only when `Beta = 0`" as stated for all
`M ≥ 1`. -/
theorem claim_C6_counterexample :
    bandpassScale 1 1 = 1 ∧ ((1 : ℝ) ≠ 0) := by
  constructor
  · rw [bandpassScale_eq_windowScale le_rfl, windowScale_length_one]
  · norm_num

/-- Claim C6 (amended): for every `Beta ≥ 0` and `M ≥ 1`, both window-mean
scale factors (bandpass length `M`, lowpass length `2M+1`) lie in `(0, 1]`;
they equal 1 when `Beta = 0`; the lowpass scale is strictly below 1 for
`Beta > 0`, and so is the bandpass scale provided `M ≥ 2`; for `M = 1` the
bandpass scale equals 1 for every `Beta` (numpy's length-1 window special
case). -/
theorem claim_C6_amended (M : ℕ) (beta : ℝ) (hb : 0 ≤ beta) (hM : 1 ≤ M) :
    (0 < bandpassScale M beta ∧ bandpassScale M beta ≤ 1) ∧
    (0 < lowpassScale M beta ∧ lowpassScale M beta ≤ 1) ∧
    (beta = 0 → bandpassScale M beta = 1 ∧ lowpassScale M beta = 1) ∧
    (0 < beta → lowpassScale M beta < 1) ∧
    (2 ≤ M → 0 < beta → bandpassScale M beta < 1) ∧
    bandpassScale 1 beta = 1 := by
  have hbp := bandpassScale_eq_windowScale hM beta
  have hlp := lowpassScale_eq_windowScale M beta
  refine ⟨⟨?_, ?_⟩, ⟨?_, ?_⟩, ?_, ?_, ?_, ?_⟩
  · rw [hbp]
    exact windowScale_pos hM beta
  · rw [hbp]
    exact windowScale_le_one hM hb
  · rw [hlp]
    exact windowScale_pos (by omega) beta
  · rw [hlp]
    exact windowScale_le_one (by omega) hb
  · intro h
    subst h
    exact ⟨by rw [hbp]; exact windowScale_beta_zero hM,
      by rw [hlp]; exact windowScale_beta_zero (by omega)⟩
  · intro h
    rw [hlp]
    exact windowScale_lt_one (by omega) h
  · intro h2 h
    rw [hbp]
    exact windowScale_lt_one h2 h
  · rw [bandpassScale_eq_windowScale le_rfl beta, windowScale_length_one]

theorem claim_C6_witness :
    0 < bandpassScale 1 0 ∧ bandpassScale 1 0 ≤ 1 :=
  (claim_C6_amended 1 0 le_rfl le_rfl).1

/-- Claim C7: from every reachable configuration, every setter and
`toggleStep` yield a configuration whose five fields all lie in their
declared domains; the setters are total functions of the model, so no error
is ever signaled. -/
theorem claim_C7_setters_domains (cfg : VNA_TDR) (h : Reachable cfg)
    (s : String) (v b r : ℝ) :
    ConfigOK (cfg.setUnit s) ∧ ConfigOK (cfg.setVF v) ∧
    ConfigOK (cfg.setBeta b) ∧ ConfigOK (cfg.setRefType r) ∧
    ConfigOK cfg.toggleStep := by
  have hc := reachable_configOK h
  exact ⟨configOK_setUnit hc s, configOK_setVF hc v, configOK_setBeta hc b,
    configOK_setRefType hc r, configOK_toggleStep hc⟩

theorem claim_C7_witness : ConfigOK (VNA_TDR.init.setVF (-1)) :=
  (claim_C7_setters_domains VNA_TDR.init Reachable.init ("Meters") (-1)
    (-1) 5).2.1

/-- Claim C8: `scaleTimeAxis` divides by `refType` for seconds, multiplies
by `9.8357e8` (feet) or `2.9979e8` (meters) before dividing by `refType`,
and is the identity for an unrecognized unit; with meters and `refType = 1`
it is multiplication by `2.9979e8`, and with `refType = 2` half of that. -/
theorem claim_C8_scaleTimeAxis (cfg : VNA_TDR) (T : List ℝ) :
    (cfg.unit = "seconds" →
      cfg.scaleTimeAxis T = T.map fun t => t / cfg.refType) ∧
    (cfg.unit = "feet" →
      cfg.scaleTimeAxis T = T.map fun t => t * 9.8357e8 / cfg.refType) ∧
    (cfg.unit = "meters" →
      cfg.scaleTimeAxis T = T.map fun t => t * 2.9979e8 / cfg.refType) ∧
    (cfg.unit ≠ "seconds" → cfg.unit ≠ "feet" → cfg.unit ≠ "meters" →
      cfg.scaleTimeAxis T = T) ∧
    (cfg.unit = "meters" → cfg.refType = 1 →
      cfg.scaleTimeAxis T = T.map fun t => t * 2.9979e8) ∧
    (cfg.unit = "meters" → cfg.refType = 2 →
      cfg.scaleTimeAxis T = T.map fun t => t * 2.9979e8 / 2) := by
  refine ⟨fun h => ?_, fun h => ?_, fun h => ?_, fun h1 h2 h3 => ?_,
    fun h hr => ?_, fun h hr => ?_⟩
  · simp [VNA_TDR.scaleTimeAxis, h]
  · simp [VNA_TDR.scaleTimeAxis, h]
  · simp [VNA_TDR.scaleTimeAxis, h]
  · simp [VNA_TDR.scaleTimeAxis, h1, h2, h3]
  · simp [VNA_TDR.scaleTimeAxis, h, hr]
  · simp [VNA_TDR.scaleTimeAxis, h, hr]

theorem claim_C8_witness :
    VNA_TDR.init.scaleTimeAxis [1] = [1].map fun t => t / VNA_TDR.init.refType :=
  (claim_C8_scaleTimeAxis VNA_TDR.init [1]).1 rfl

/-- A kernel returning the single sample `0`, used to witness membership
statements on concrete responses. -/
def constKernel : Kernel := fun _freq _spectrum _time => ([], [0])

/-- Claim C9: every magnitude response handed back to the caller — by
`bandpass`, by `lowpass_impulse` entered with `Step = 0`, and by
`lowpass_step` — is entrywise real and non-negative. -/
theorem claim_C9_nonneg (K : Kernel) (cfg : VNA_TDR) (X : List ℂ)
    (F1 F2 T1 T2 : ℝ) :
    (∀ y ∈ (bandpass K cfg X F1 F2 T1 T2).1.2, 0 ≤ y) ∧
    (cfg.Step = 0 → ∀ z ∈ (lowpass_impulse K cfg X F1 F2 T1 T2).1.2,
      z.im = 0 ∧ 0 ≤ z.re) ∧
    (∀ y ∈ (lowpass_step K cfg X F1 F2 T1 T2).1.2, 0 ≤ y) := by
  refine ⟨?_, ?_, ?_⟩
  · intro y hy
    simp only [bandpass, List.mem_map] at hy
    obtain ⟨z, _, rfl⟩ := hy
    exact div_nonneg (Complex.abs.nonneg _) (bandpassScale_nonneg _ _)
  · intro h z hz
    rw [lowpass_impulse_step_zero h] at hz
    simp only [List.mem_map] at hz
    obtain ⟨w, _, rfl⟩ := hz
    refine ⟨Complex.ofReal_im _, ?_⟩
    rw [Complex.ofReal_re]
    exact div_nonneg (Complex.abs.nonneg _) (lowpassScale_nonneg _ _)
  · intro y hy
    simp only [lowpass_step, List.mem_map] at hy
    obtain ⟨z, _, rfl⟩ := hy
    refine div_nonneg (Complex.abs.nonneg _) ?_
    exact div_nonneg (by positivity) (Nat.cast_nonneg _)

theorem claim_C9_witness :
    0 ≤ Complex.abs 0 /
      bandpassScale (List.length ([1] : List ℂ)) VNA_TDR.init.Beta :=
  (claim_C9_nonneg constKernel VNA_TDR.init [1] 0 1 0 1).1
    (Complex.abs 0 / bandpassScale (List.length ([1] : List ℂ))
      VNA_TDR.init.Beta)
    (List.mem_singleton_self _)

/-- Claim C10: `bandpass` mutates no configuration field, and the lowpass
transforms mutate none of `unit`, `refType`, `VF` and `Beta`. -/
theorem claim_C10_frame (K : Kernel) (cfg : VNA_TDR) (X : List ℂ)
    (F1 F2 T1 T2 : ℝ) :
    (bandpass K cfg X F1 F2 T1 T2).2 = cfg ∧
    ((lowpass_impulse K cfg X F1 F2 T1 T2).2.unit = cfg.unit ∧
     (lowpass_impulse K cfg X F1 F2 T1 T2).2.refType = cfg.refType ∧
     (lowpass_impulse K cfg X F1 F2 T1 T2).2.VF = cfg.VF ∧
     (lowpass_impulse K cfg X F1 F2 T1 T2).2.Beta = cfg.Beta) ∧
    ((lowpass_step K cfg X F1 F2 T1 T2).2.unit = cfg.unit ∧
     (lowpass_step K cfg X F1 F2 T1 T2).2.refType = cfg.refType ∧
     (lowpass_step K cfg X F1 F2 T1 T2).2.VF = cfg.VF ∧
     (lowpass_step K cfg X F1 F2 T1 T2).2.Beta = cfg.Beta) := by
  have h := toggleStep_fields cfg
  have h2 := toggleStep_fields cfg.toggleStep
  refine ⟨rfl, ?_, ?_⟩
  · rw [lowpass_impulse_snd]
    split_ifs
    · exact ⟨h.1, h.2.1, h.2.2.1, h.2.2.2⟩
    · exact ⟨rfl, rfl, rfl, rfl⟩
  · rw [lowpass_step_snd, lowpass_impulse_snd]
    split_ifs
    · exact ⟨h2.1.trans h.1, h2.2.1.trans h.2.1, h2.2.2.1.trans h.2.2.1,
        h2.2.2.2.trans h.2.2.2⟩
    · exact ⟨h.1, h.2.1, h.2.2.1, h.2.2.2⟩
